import Mathlib

set_option maxHeartbeats 1000000
set_option maxRecDepth 10000

/-!
Shallow embedding of the payfazz/FST-Database-Handler repository
(package data: repository.go and repository_pg.go).

Go strings are modelled by Lean String, Go slices by List, Go int by Int
(64-bit semantics made explicit where overflow matters, in goAtoi below),
and fallible operations by Except/Option.  Database effects (Prepare,
Exec) are modelled by explicit traces of the statements the code builds,
with the success oracle stated in each theorem.
-/

namespace DataRepo

/-! ### Go standard library helpers used by the source -/

/-- Model of Go strings.Join(a, sep). -/
def goJoin : List String → String → String
  | [], _ => ""
  | [x], _ => x
  | x :: y :: xs, sep => x ++ sep ++ goJoin (y :: xs) sep

/-- Concatenation of a list of strings, modelling sequential strings.Builder writes. -/
def strConcat : List String → String
  | [] => ""
  | x :: xs => x ++ strConcat xs

/-- Model of Go strings.HasSuffix. -/
def goHasSuffix (s suff : String) : Bool :=
  suff.data.isSuffixOf s.data

/-- Model of Go strings.TrimSuffix: drop suff from the end of s when present. -/
def goTrimSuffix (s suff : String) : String :=
  if goHasSuffix s suff then ⟨s.data.take (s.data.length - suff.data.length)⟩ else s

/-- Go whitespace class used by strings.TrimSpace (ASCII part of unicode.IsSpace). -/
def goIsSpace (c : Char) : Bool :=
  c = ' ' || c = '\t' || c = '\n' || c = Char.ofNat 11 || c = Char.ofNat 12 || c = '\r'

/-- Model of Go strings.TrimSpace. -/
def goTrimSpace (s : String) : String :=
  ⟨((s.data.dropWhile goIsSpace).reverse.dropWhile goIsSpace).reverse⟩

/-- Model of Go strings.Index(value, ".") followed by the slice value[:i]
    in StringToInt: keep the characters strictly before the first dot. -/
def truncOnDot (s : String) : String :=
  ⟨s.data.takeWhile (fun c => c ≠ '.')⟩

/-! ### Go strconv.Atoi (base 10, 64-bit int), with its exact clamping
    behaviour: a syntactically bad string yields 0 with an invalid-error,
    an out-of-range numeral yields the clamped boundary value with a
    range-error.  Errors are reported so that callers that discard them
    (as repository_pg.go does) can be modelled faithfully. -/

inductive AtoiErr where
  | invalid : AtoiErr
  | range : AtoiErr
deriving DecidableEq, Repr

def MAXUINT64 : Nat := 2 ^ 64 - 1

/-- Digit-accumulation loop of strconv.ParseUint (base 10, 64 bits): stops with
    a clamped range-error as soon as the accumulator would overflow uint64,
    and with an invalid-error at the first non-digit character. -/
def parseUintLoop : Nat → List Char → Nat × Option AtoiErr
  | n, [] => (n, none)
  | n, c :: rest =>
    if 48 ≤ c.toNat ∧ c.toNat ≤ 57 then
      let n1 := n * 10 + (c.toNat - 48)
      if n1 > MAXUINT64 then (MAXUINT64, some AtoiErr.range)
      else parseUintLoop n1 rest
    else (0, some AtoiErr.invalid)

/-- strconv.ParseUint on a digit string (empty input is a syntax error). -/
def parseUint : List Char → Nat × Option AtoiErr
  | [] => (0, some AtoiErr.invalid)
  | c :: rest => parseUintLoop 0 (c :: rest)

/-- Model of Go strconv.Atoi on the character contents: optional sign,
    decimal digits, 64-bit int range.  On a range error the returned value
    is the clamped boundary, exactly as strconv.ParseInt documents; a
    syntactically invalid numeral yields 0. -/
def goAtoiList (cs : List Char) : Int × Option AtoiErr :=
  match cs with
  | [] => (0, some AtoiErr.invalid)
  | c :: rest =>
    let neg := c = '-'
    let digits := if c = '-' ∨ c = '+' then rest else c :: rest
    let p := parseUint digits
    if p.2 = some AtoiErr.invalid then (0, some AtoiErr.invalid)
    else if ¬neg ∧ 2 ^ 63 ≤ p.1 then (2 ^ 63 - 1, some AtoiErr.range)
    else if neg ∧ 2 ^ 63 < p.1 then (-(2 ^ 63), some AtoiErr.range)
    else ((if neg then -(p.1 : Int) else (p.1 : Int)), p.2)

/-- Model of Go strconv.Atoi. -/
def goAtoi (s : String) : Int × Option AtoiErr :=
  goAtoiList s.data

/-! ### Tag classification (repository_pg.go lines 606-663) -/

def idTag (dbTag : String) : Bool :=
  dbTag == "id"

def emptyTag (dbTag : String) : Bool :=
  ["", "-"].contains dbTag

def createdTag (dbTag : String) : Bool :=
  dbTag == "created_at"

def updatedTag (dbTag : String) : Bool :=
  dbTag == "updated_at"

def deleteTag (dbTag : String) : Bool :=
  dbTag == "deleted_at"

def readOnlyTags : List String :=
  ["is_deleted", "deleted_at", "id", "created_at", "updated_at",
   "topup_method_id", "bs_topup_banktransfer_id", "bs_topup_virtualaccount_id",
   "bs_topup_provider_id", "topup_id", "topup_recon_matched_id",
   "topup_recon_unmatched_id", "statement_id", "transfer_recon_unmatched_id",
   "transfer_recon_matched_id"]

def readOnlyTag (dbTag : String) : Bool :=
  readOnlyTags.contains dbTag

/-! ### Entity types: a struct field is its db tag plus whether its declared
    Go type kind is Int64 (the only kind InsertBulkBase inspects). -/

structure GoField where
  dbTag : String
  isInt64 : Bool
deriving DecidableEq, Repr

/-! ### Query fragment builders (repository_pg.go lines 521-604).
    Each Go function appends to a list of strings in field-declaration order
    and joins it; the list-valued versions below are the loop results, the
    string versions apply the final strings.Join. -/

def selectFieldsList (fields : List GoField) : List String :=
  (fields.filter (fun f => f.dbTag != "" && f.dbTag != "-")).map
    (fun f => "\"" ++ f.dbTag ++ "\"")

def selectFields (fields : List GoField) : String :=
  goJoin (selectFieldsList fields) ", "

def insertFieldsList (fields : List GoField) : List String :=
  let dbFields := (fields.filter
      (fun f => !readOnlyTag f.dbTag && !emptyTag f.dbTag)).map
    (fun f => "\"" ++ f.dbTag ++ "\"")
  let createTag := fields.any (fun f => createdTag f.dbTag)
  let updateTag := fields.any (fun f => updatedTag f.dbTag)
  -- the deleteTag flag in the source is initialised to false and never set,
  -- so the deleted_at branch is dead code
  dbFields ++ (if createTag then ["\"created_at\""] else [])
    ++ (if updateTag then ["\"updated_at\""] else [])

def insertFields (fields : List GoField) : String :=
  goJoin (insertFieldsList fields) ", "

def insertParamsList (fields : List GoField) : List String :=
  let dbParams := (fields.filter
      (fun f => !readOnlyTag f.dbTag && !emptyTag f.dbTag)).map
    (fun f => ":" ++ f.dbTag)
  let createTag := fields.any (fun f => createdTag f.dbTag)
  let updateTag := fields.any (fun f => updatedTag f.dbTag)
  dbParams ++ (if createTag then [":created_at"] else [])
    ++ (if updateTag then [":updated_at"] else [])

def insertParams (fields : List GoField) : String :=
  goJoin (insertParamsList fields) ", "

def updateSetFieldsList (fields : List GoField) : List String :=
  "\"updated_at\" = :updated_at" ::
    (fields.filter (fun f => !readOnlyTag f.dbTag && !emptyTag f.dbTag)).map
      (fun f => "\"" ++ f.dbTag ++ "\" = :" ++ f.dbTag)

def updateSetFields (fields : List GoField) : String :=
  goJoin (updateSetFieldsList fields) ","

/-! ### Repository construction (repository_pg.go lines 22-45) -/

structure PostgresRepository where
  tableName : String
  elemType : List GoField
  selectFields : String
  insertFields : String
  insertParams : String
  updateSetFields : String
deriving DecidableEq, Repr

def NewPostgresRepository (tableName : String) (elem : List GoField) :
    PostgresRepository :=
  { tableName := tableName
    elemType := elem
    selectFields := selectFields elem
    insertFields := insertFields elem
    insertParams := insertParams elem
    updateSetFields := updateSetFields elem }

/-! ### writeStmt (repository_pg.go lines 665-683) -/

def rowPerInsert : Nat := 100

def aliasConst : String := "A"

/-- Translation of writeStmt: the nested for loops append to a string
    builder, then the final TrimSuffix drops the trailing comma. -/
def writeStmt (rpi numFields : Nat) (stmt : String) : String :=
  goTrimSuffix
    (stmt ++ strConcat ((List.range rpi).map (fun i =>
      "(" ++ strConcat ((List.range numFields).map (fun k =>
        if k ≠ numFields - 1 then "$" ++ toString (i * numFields + k + 1) ++ ","
        else "$" ++ toString (i * numFields + k + 1))) ++ "),")))
    ","

/-- Written from the claim and spec wording, for comparison with writeStmt:
    the given prefix followed by W comma-joined parenthesized row-groups,
    each of C comma-separated placeholders, row i column k being
    number i*C+k+1. -/
def writeStmtSpec (w c : Nat) (stmt : String) : String :=
  stmt ++ goJoin ((List.range w).map (fun i =>
    "(" ++ goJoin ((List.range c).map
      (fun k => "$" ++ toString (i * c + k + 1))) "," ++ ")")) ","

/-- Translation of StringToInt: truncate at the first dot, trim whitespace,
    strconv.Atoi with the error discarded. -/
def StringToInt (value : String) : Int :=
  (goAtoi (goTrimSpace (truncOnDot value))).1

/-! ### Dynamic Go values, as they flow through InsertBulkBase -/

inductive GoValue where
  | str : String → GoValue
  | int : Int → GoValue
  | time : GoValue
deriving DecidableEq, Repr

/-- Model of fmt.Sprintf with verb s on an interface value: a string prints
    itself, any other dynamic type prints the bad-verb form. -/
def sprintfS : GoValue → String
  | GoValue.str s => s
  | GoValue.int n => "%!s(int64=" ++ toString n ++ ")"
  | GoValue.time => "%!s(time.Time)"

/-- One element of the slice passed to InsertBulkBase: either the type
    assertion to a value slice succeeds (rows), or the element is a struct
    read back through reflection (strukt). -/
inductive GoElem where
  | rows : List GoValue → GoElem
  | strukt : List GoValue → GoElem
deriving DecidableEq, Repr

/-- Per-element bind values on the value-slice path of InsertBulkBase
    (lines 149-168): iterate the supplied rows, classify by the tag of the
    field at the same index, and coerce through StringToInt exactly when the
    declared field kind is Int64. -/
def bindRowsElem (fields : List GoField) (rows : List GoValue) : List GoValue :=
  (rows.zip fields).filterMap (fun p =>
    if !emptyTag p.2.dbTag && !readOnlyTag p.2.dbTag then
      some (if p.2.isInt64 then GoValue.int (StringToInt (sprintfS p.1)) else p.1)
    else none)

/-- Per-element bind values on the struct path of InsertBulkBase
    (lines 169-183): iterate the declared fields and bind the reflected
    field value verbatim. -/
def bindStructElem (fields : List GoField) (vals : List GoValue) : List GoValue :=
  (fields.zip vals).filterMap (fun p =>
    if !emptyTag p.1.dbTag && !readOnlyTag p.1.dbTag then some p.2 else none)

/-- columnLength computed by the two loops at lines 112-134: one count per
    created_at field, one per updated_at field, one per insert-eligible
    field.  (The columnName slice built alongside is never read again,
    only the length is used.) -/
def colLen (fields : List GoField) : Nat :=
  fields.countP (fun f => createdTag f.dbTag) +
  fields.countP (fun f => updatedTag f.dbTag) +
  fields.countP (fun f => !emptyTag f.dbTag && !readOnlyTag f.dbTag)

/-- Loop state of InsertBulkBase: pending bind values, the row widths of the
    statements executed so far, the accumulated affected-row count, and the
    createTag/updateTag flags (declared once, outside the element loop). -/
structure BulkState where
  bindValues : List GoValue
  stmts : List Nat
  count : Nat
  createTag : Bool
  updateTag : Bool
deriving DecidableEq, Repr

/-- Body of the element loop of InsertBulkBase (lines 146-206) for the input
    element with index i.  Each execution of the prepared full-batch
    statement is modelled as succeeding with affected-row count equal to its
    row width rowPerInsert (the all-rows-succeed oracle). -/
def bulkElemStep (fields : List GoField) (st : BulkState) (ie : Nat × GoElem) :
    BulkState :=
  let binds := match ie.2 with
    | GoElem.rows rows => bindRowsElem fields rows
    | GoElem.strukt vals => bindStructElem fields vals
  let cT := st.createTag || (match ie.2 with
    | GoElem.rows rows => (rows.zip fields).any (fun p => createdTag p.2.dbTag)
    | GoElem.strukt _ => fields.any (fun f => createdTag f.dbTag))
  let uT := st.updateTag || (match ie.2 with
    | GoElem.rows rows => (rows.zip fields).any (fun p => updatedTag p.2.dbTag)
    | GoElem.strukt _ => fields.any (fun f => updatedTag f.dbTag))
  let bv := st.bindValues ++ binds
    ++ (if cT then [GoValue.time] else [])
    ++ (if uT then [GoValue.time] else [])
  if (ie.1 + 1) % rowPerInsert = 0 then
    { bindValues := []
      stmts := st.stmts ++ [rowPerInsert]
      count := st.count + rowPerInsert
      createTag := cT
      updateTag := uT }
  else
    { st with bindValues := bv, createTag := cT, updateTag := uT }

/-- Remainder handling after the element loop of InsertBulkBase
    (lines 211-231): when bind values are left over, a statement of width
    (len(bindValues)/columnLength) mod rowPerInsert is prepared and
    executed, again succeeding with its row width as the affected count. -/
def bulkFinish (fields : List GoField) (st : BulkState) :
    Except String (Nat × List Nat) :=
  if st.bindValues.length > 0 then
    Except.ok
      (st.count + (st.bindValues.length / colLen fields) % rowPerInsert,
       st.stmts ++ [(st.bindValues.length / colLen fields) % rowPerInsert])
  else Except.ok (st.count, st.stmts)

/-- Translation of InsertBulkBase (lines 93-232), under the oracle that every
    statement execution succeeds and reports its row width as the affected
    count.  The result pairs the returned count with the ordered row widths
    of the executed INSERT statements: full batches of width rowPerInsert
    executed inside the loop, then the remainder statement produced by
    bulkFinish. -/
def InsertBulkBase (fields : List GoField) (elem : List GoElem) :
    Except String (Nat × List Nat) :=
  if elem.length = 0 then Except.error "Elem is empty"
  else
    bulkFinish fields
      (elem.enum.foldl (bulkElemStep fields)
        { bindValues := [], stmts := [], count := 0,
          createTag := false, updateTag := false })

/-- InsertBulk discards the count of InsertBulkBase (lines 234-238). -/
def InsertBulk (fields : List GoField) (elem : List GoElem) :
    Except String Unit :=
  (InsertBulkBase fields elem).map (fun _ => ())

/-- InsertBulkWithCount forwards InsertBulkBase (lines 240-243). -/
def InsertBulkWithCount (fields : List GoField) (elem : List GoElem) :
    Except String (Nat × List Nat) :=
  InsertBulkBase fields elem

/-- Shape of a well-formed input element: a value slice supplies one value
    per declared field, and a struct has exactly the declared fields. -/
def elemOK (fields : List GoField) : GoElem → Bool
  | GoElem.rows r => r.length = fields.length
  | GoElem.strukt v => v.length = fields.length

/-! ### RunInTransaction (repository.go lines 63-85) -/

/-- Outcome of the caller-supplied unit of work. -/
inductive FResult where
  | ok : FResult
  | fail : String → FResult
  | panics : String → FResult
deriving DecidableEq, Repr

/-- What RunInTransaction does to its caller: returns a value, or lets a
    panic escape after the deferred rollback. -/
inductive RunResult where
  | ret : Option String → RunResult
  | panicked : String → RunResult
deriving DecidableEq, Repr

/-- Which transaction-ending calls the deferred function performed. -/
structure TxTrace where
  began : Bool
  rolledBack : Bool
  committed : Bool
deriving DecidableEq, Repr

/-- Translation of RunInTransaction.  The Go function has an UNNAMED error
    result, so the value returned to the caller is the value of the local
    err at the return statement; the deferred assignment err = tx.Commit()
    mutates the local variable only and cannot reach the caller.  Beginx and
    Commit outcomes are inputs (none = success). -/
def RunInTransaction (beginErr : Option String) (fres : FResult)
    (commitErr : Option String) : RunResult × TxTrace :=
  match beginErr with
  | some e => (RunResult.ret (some e),
      { began := false, rolledBack := false, committed := false })
  | none =>
    match fres with
    | FResult.panics p => (RunResult.panicked p,
        { began := true, rolledBack := true, committed := false })
    | FResult.fail e => (RunResult.ret (some e),
        { began := true, rolledBack := true, committed := false })
    | FResult.ok =>
      -- the deferred closure runs err = tx.Commit(), but the nil err was
      -- already copied into the unnamed result slot, so commitErr is lost
      let _localErrAfterDefer := commitErr
      (RunResult.ret none,
        { began := true, rolledBack := false, committed := true })

/-! ### Read-operation routing (repository_pg.go lines 62-87, 274-426) -/

inductive Executor where
  | pool : Executor
  | tx : Executor
deriving DecidableEq, Repr

/-- Single (lines 274-297): executor choice, FOR UPDATE suffix and the SQL
    handed to PrepareNamed. -/
def Single (r : PostgresRepository) (inTx : Bool) (whereS : String) :
    Executor × String :=
  let db := if inTx then Executor.tx else Executor.pool
  let forUpdate := if inTx then " FOR UPDATE" else ""
  (db, "SELECT " ++ r.selectFields ++ " FROM " ++ r.tableName ++ " WHERE "
    ++ whereS ++ " " ++ forUpdate ++ " LIMIT 1")

/-- Where (lines 402-426). -/
def Where (r : PostgresRepository) (inTx : Bool) (whereS : String) :
    Executor × String :=
  let db := if inTx then Executor.tx else Executor.pool
  let forUpdate := if inTx then " FOR UPDATE" else ""
  (db, "SELECT " ++ r.selectFields ++ " FROM " ++ r.tableName ++ " WHERE "
    ++ whereS ++ forUpdate)

/-- SelectAll (lines 62-87), including the default ordering column. -/
def SelectAll (r : PostgresRepository) (inTx : Bool) (orderBy limit : String) :
    Executor × String :=
  let db := if inTx then Executor.tx else Executor.pool
  let forUpdate := if inTx then " FOR UPDATE" else ""
  let orderBy := if orderBy == "" then "ID" else orderBy
  (db, "SELECT " ++ r.selectFields ++ " FROM " ++ r.tableName ++ " ORDER BY "
    ++ orderBy ++ " LIMIT " ++ limit ++ " " ++ forUpdate)

/-- CustomQuery (lines 299-349): the transaction branch assigns the empty
    string to forUpdate, exactly as in the source. -/
def CustomQuery (inTx : Bool) (stmt : String) : Executor × String :=
  let db := if inTx then Executor.tx else Executor.pool
  let forUpdate := if inTx then "" else ""
  (db, stmt ++ forUpdate)

/-- CustomAnyQuery (lines 351-400), which does append the suffix. -/
def CustomAnyQuery (inTx : Bool) (stmt : String) : Executor × String :=
  let db := if inTx then Executor.tx else Executor.pool
  let forUpdate := if inTx then " FOR UPDATE" else ""
  (db, stmt ++ forUpdate)

/-! ### PermanentDelete (repository_pg.go lines 452-475) -/

inductive DBAction where
  | prepareNamed : Executor → String → DBAction
  | exec : DBAction
deriving DecidableEq, Repr

/-- Translation of PermanentDelete: the nil-argument validation error is
    returned before any statement is prepared or executed; otherwise the
    DELETE statement (with the raw-string leading whitespace of the source
    literal) is prepared and executed. -/
def PermanentDelete (r : PostgresRepository) (inTx : Bool) (whereS : String)
    (argIsNil : Bool) : Option String × List DBAction :=
  let db := if inTx then Executor.tx else Executor.pool
  if argIsNil then
    (some "There Must be Where condition for Deletion Process", [])
  else
    (none,
     [DBAction.prepareNamed db
        ("\n\t\tDELETE FROM " ++ r.tableName ++ " WHERE " ++ whereS),
      DBAction.exec])

/-! ### Derived column-tag lists used to state ordering properties -/

/-- Tags of the columns of selectFields, in emission order. -/
def selectTagsList (fields : List GoField) : List String :=
  (fields.filter (fun f => f.dbTag != "" && f.dbTag != "-")).map GoField.dbTag

/-- Tags of the columns of insertFields and insertParams, in emission order:
    the insert-eligible declared fields followed by the conditionally
    appended timestamp columns. -/
def insertTagsList (fields : List GoField) : List String :=
  (fields.filter (fun f => !readOnlyTag f.dbTag && !emptyTag f.dbTag)).map GoField.dbTag
    ++ (if fields.any (fun f => createdTag f.dbTag) then ["created_at"] else [])
    ++ (if fields.any (fun f => updatedTag f.dbTag) then ["updated_at"] else [])

/-- An entity type that declares its created_at column before an ordinary
    writable column. -/
def c4Fields : List GoField := [⟨"created_at", false⟩, ⟨"name", false⟩]

/-- The entity type of the descriptor scenario: columns id (read-only),
    name, created_at, updated_at in that declaration order. -/
def c5Fields : List GoField :=
  [⟨"id", false⟩, ⟨"name", false⟩, ⟨"created_at", false⟩, ⟨"updated_at", false⟩]

/-- A one-column entity type used to exercise the bulk-insert batching. -/
def c1Fields : List GoField := [⟨"name", false⟩]

/-- 250 well-formed value-slice elements for the bulk-insert scenario. -/
def c1Elems : List GoElem := List.replicate 250 (GoElem.rows [GoValue.str "x"])

/-! ## Theorems -/

/-! ### String lemmas -/

theorem sempty_append (s : String) : "" ++ s = s := rfl

theorem sappend_empty (s : String) : s ++ "" = s :=
  congrArg String.mk (List.append_nil s.data)

theorem sappend_assoc (a b c : String) : a ++ b ++ c = a ++ (b ++ c) :=
  congrArg String.mk (List.append_assoc a.data b.data c.data)

theorem close_comma (X : String) : "(" ++ X ++ ")," = ("(" ++ X ++ ")") ++ "," := by
  rw [sappend_assoc, sappend_assoc]
  rfl

theorem goJoin_cons (x : String) (ys : List String) (sep : String) (h : ys ≠ []) :
    goJoin (x :: ys) sep = x ++ sep ++ goJoin ys sep := by
  cases ys with
  | nil => exact absurd rfl h
  | cons y ys => rfl

theorem strConcat_append (A B : List String) :
    strConcat (A ++ B) = strConcat A ++ strConcat B := by
  induction A with
  | nil => exact (sempty_append _).symm
  | cons a A ih =>
    show a ++ strConcat (A ++ B) = (a ++ strConcat A) ++ strConcat B
    rw [ih, sappend_assoc]

theorem strConcat_comma_join (l : List String) (x : String) :
    strConcat (l.map (fun s => s ++ ",")) ++ x = goJoin (l ++ [x]) "," := by
  induction l with
  | nil => rfl
  | cons a l ih =>
    show ((a ++ ",") ++ strConcat (l.map (fun s => s ++ ","))) ++ x = _
    rw [sappend_assoc, ih]
    exact (goJoin_cons a (l ++ [x]) "," (by simp)).symm

theorem goTrimSuffix_comma (s : String) : goTrimSuffix (s ++ ",") "," = s := by
  have hd : (s ++ ",").data = s.data ++ [','] := rfl
  unfold goTrimSuffix goHasSuffix
  rw [hd]
  have hs : ([','] : List Char).isSuffixOf (s.data ++ [',']) = true := by
    simp
  have hsd : (",".data : List Char) = [','] := rfl
  rw [hsd, hs]
  simp only [if_true]
  have hlen : (s.data ++ [',']).length - ([','] : List Char).length = s.data.length := by
    simp
  rw [hlen, List.take_left]

/-! ### writeStmt equals its specification (claim C2) -/

theorem inner_group_eq (c : Nat) (hc : 1 ≤ c) (f : Nat → String) :
    strConcat ((List.range c).map (fun k => if k ≠ c - 1 then f k ++ "," else f k))
      = goJoin ((List.range c).map f) "," := by
  obtain ⟨d, rfl⟩ : ∃ d, c = d + 1 := ⟨c - 1, by omega⟩
  rw [List.range_succ, List.map_append, List.map_append, strConcat_append]
  have h1 : (List.range d).map (fun k => if k ≠ d + 1 - 1 then f k ++ "," else f k)
      = ((List.range d).map f).map (fun s => s ++ ",") := by
    rw [List.map_map]
    apply List.map_congr_left
    intro k hk
    have : k < d := List.mem_range.mp hk
    simp only [Function.comp]
    rw [if_pos (by omega)]
  rw [h1]
  have h2 : strConcat ([d].map (fun k => if k ≠ d + 1 - 1 then f k ++ "," else f k)) = f d := by
    show (if d ≠ d + 1 - 1 then f d ++ "," else f d) ++ "" = f d
    rw [if_neg (by omega), sappend_empty]
  rw [h2, strConcat_comma_join]
  rfl

theorem strConcat_commas (l : List String) (x : String) :
    strConcat ((l ++ [x]).map (fun s => s ++ ",")) = goJoin (l ++ [x]) "," ++ "," := by
  rw [List.map_append, strConcat_append]
  show _ ++ ((x ++ ",") ++ "") = _
  rw [sappend_empty, ← sappend_assoc, strConcat_comma_join]

/-- Claim C2: for every batch width W at least 1 and column count C at
    least 1, writeStmt(W, C, stmt) is the given prefix followed by the W
    comma-joined parenthesized row-groups of C comma-separated positional
    placeholders each, the placeholder of 0-based row i and 0-based column
    k being number i*C+k+1 (writeStmtSpec states exactly this shape). -/
theorem writeStmt_correct (w c : Nat) (stmt : String) (hw : 1 ≤ w) (hc : 1 ≤ c) :
    writeStmt w c stmt = writeStmtSpec w c stmt := by
  unfold writeStmt writeStmtSpec
  have hmap : (List.range w).map (fun i =>
        "(" ++ strConcat ((List.range c).map (fun k =>
          if k ≠ c - 1 then "$" ++ toString (i * c + k + 1) ++ ","
          else "$" ++ toString (i * c + k + 1))) ++ "),")
      = ((List.range w).map (fun i =>
          "(" ++ goJoin ((List.range c).map
            (fun k => "$" ++ toString (i * c + k + 1))) "," ++ ")")).map
          (fun s => s ++ ",") := by
    rw [List.map_map]
    exact List.map_congr_left (fun i _ => by
      rw [inner_group_eq c hc]
      exact close_comma _)
  rw [hmap]
  obtain ⟨d, rfl⟩ : ∃ d, w = d + 1 := ⟨w - 1, by omega⟩
  rw [List.range_succ, List.map_append]
  simp only [List.map_cons, List.map_nil]
  rw [strConcat_commas, ← sappend_assoc, goTrimSuffix_comma]

/-- Claim C2 witness: at W = 2, C = 3 the placeholders of row 0 are
    numbered 1,2,3 and those of row 1 are numbered 4,5,6. -/
theorem writeStmt_correct_witness :
    (1 ≤ 2 ∧ 1 ≤ 3) ∧
    writeStmt 2 3 "INSERT INTO tbl (a, b, c) VALUES "
      = "INSERT INTO tbl (a, b, c) VALUES ($1,$2,$3),($4,$5,$6)" :=
  ⟨⟨by decide, by decide⟩,
   (writeStmt_correct 2 3 "INSERT INTO tbl (a, b, c) VALUES "
      (by decide) (by decide)).trans (by decide)⟩

/-! ### Fragment ordering and correspondence (claims C4, C5, C6) -/

theorem selP_eq (t : String) : (t != "" && t != "-") = !emptyTag t := by
  rw [Bool.eq_iff_iff]
  simp [emptyTag, bne_iff_ne, not_or]

theorem elig_and_selP (f : GoField) :
    ((!readOnlyTag f.dbTag && !emptyTag f.dbTag) && (f.dbTag != "" && f.dbTag != "-"))
      = (!readOnlyTag f.dbTag && !emptyTag f.dbTag) := by
  rw [selP_eq]
  cases h1 : readOnlyTag f.dbTag <;> cases h2 : emptyTag f.dbTag <;> simp

theorem selectFieldsList_eq (fields : List GoField) :
    selectFieldsList fields = (selectTagsList fields).map (fun t => "\"" ++ t ++ "\"") := by
  unfold selectFieldsList selectTagsList
  rw [List.map_map]
  rfl

theorem insertFieldsList_eq (fields : List GoField) :
    insertFieldsList fields = (insertTagsList fields).map (fun t => "\"" ++ t ++ "\"") := by
  unfold insertFieldsList insertTagsList
  simp only [List.map_append, List.map_map,
    apply_ite (List.map (fun t => "\"" ++ t ++ "\"")), List.map_cons, List.map_nil]
  rfl

theorem insertParamsList_eq (fields : List GoField) :
    insertParamsList fields = (insertTagsList fields).map (fun t => ":" ++ t) := by
  unfold insertParamsList insertTagsList
  simp only [List.map_append, List.map_map,
    apply_ite (List.map (fun t => ":" ++ t)), List.map_cons, List.map_nil]
  rfl

theorem createdTag_eq (t : String) (h : createdTag t = true) : t = "created_at" := by
  simpa [createdTag] using h

theorem updatedTag_eq (t : String) (h : updatedTag t = true) : t = "updated_at" := by
  simpa [updatedTag] using h

theorem field_count_le (f : GoField) :
    ((if (!readOnlyTag f.dbTag && !emptyTag f.dbTag) = true then 1 else 0)
      + (if createdTag f.dbTag = true then 1 else 0)
      + (if updatedTag f.dbTag = true then 1 else 0) : Nat)
      ≤ (if (f.dbTag != "" && f.dbTag != "-") = true then 1 else 0) := by
  by_cases hC : createdTag f.dbTag = true
  · rw [createdTag_eq _ hC]
    decide
  · by_cases hU : updatedTag f.dbTag = true
    · rw [updatedTag_eq _ hU]
      decide
    · rw [selP_eq]
      simp only [hC, hU, if_false]
      cases h1 : readOnlyTag f.dbTag <;> cases h2 : emptyTag f.dbTag <;> simp

theorem count_sel_ge (fields : List GoField) :
    fields.countP (fun f => !readOnlyTag f.dbTag && !emptyTag f.dbTag)
      + fields.countP (fun f => createdTag f.dbTag)
      + fields.countP (fun f => updatedTag f.dbTag)
      ≤ fields.countP (fun f => f.dbTag != "" && f.dbTag != "-") := by
  induction fields with
  | nil => simp
  | cons f fs ih =>
    simp only [List.countP_cons]
    have := field_count_le f
    omega

theorem ite_any_le_countP (fields : List GoField) (p : GoField → Bool) :
    (if fields.any p then 1 else 0) ≤ fields.countP p := by
  by_cases h : fields.any p = true
  · obtain ⟨x, hx, hpx⟩ := List.any_eq_true.mp h
    have hp : 0 < fields.countP p := List.countP_pos_iff.mpr ⟨x, hx, hpx⟩
    rw [if_pos h]
    omega
  · rw [if_neg h]
    omega

theorem select_len_ge_insert_len (fields : List GoField) :
    (insertFieldsList fields).length ≤ (selectFieldsList fields).length := by
  rw [insertFieldsList_eq]
  unfold insertTagsList selectFieldsList
  simp only [List.length_map, List.length_append,
    apply_ite List.length, List.length_cons, List.length_nil, Nat.zero_add,
    ← List.countP_eq_length_filter]
  have h1 := ite_any_le_countP fields (fun f => createdTag f.dbTag)
  have h2 := ite_any_le_countP fields (fun f => updatedTag f.dbTag)
  have h3 := count_sel_ge fields
  omega

theorem select_filter_eligible (fields : List GoField) :
    (selectTagsList fields).filter (fun t => !readOnlyTag t && !emptyTag t)
      = (fields.filter (fun f => !readOnlyTag f.dbTag && !emptyTag f.dbTag)).map GoField.dbTag := by
  unfold selectTagsList
  rw [List.filter_map]
  congr 1
  rw [List.filter_filter]
  exact List.filter_congr (fun f _ => elig_and_selP f)

/-- Claim C4 counterexample: for the entity type declaring created_at
    before name, the columns shared by selectFields and insertFields are
    exactly created_at and name, but they occur in reversed relative
    orders, so positional correspondence fails. -/
theorem select_insert_order_counterexample :
    selectFields c4Fields = "\"created_at\", \"name\"" ∧
    insertFields c4Fields = "\"name\", \"created_at\"" ∧
    insertTagsList c4Fields = (selectTagsList c4Fields).reverse ∧
    insertTagsList c4Fields ≠ selectTagsList c4Fields := by
  refine ⟨by decide, by decide, by decide, by decide⟩

/-- Claim C4 (amended): inside selectFields the columns follow field
    declaration order; insertFields lists the insert-eligible columns in
    declaration order and then appends created_at and updated_at at the
    end, so the relative order of the shared non-timestamp (insert-eligible)
    columns is identical across the two fragments (filtering selectFields
    down to the eligible tags yields exactly the insertFields column list
    before the timestamp suffix), while a declared timestamp column keeps
    its declaration position only in selectFields. -/
theorem fragment_order_amended (fields : List GoField) :
    selectFieldsList fields = (selectTagsList fields).map (fun t => "\"" ++ t ++ "\"") ∧
    insertFieldsList fields = (insertTagsList fields).map (fun t => "\"" ++ t ++ "\"") ∧
    (selectTagsList fields).filter (fun t => !readOnlyTag t && !emptyTag t)
      = (fields.filter (fun f => !readOnlyTag f.dbTag && !emptyTag f.dbTag)).map GoField.dbTag ∧
    insertTagsList fields
      = (fields.filter (fun f => !readOnlyTag f.dbTag && !emptyTag f.dbTag)).map GoField.dbTag
        ++ (if fields.any (fun f => createdTag f.dbTag) then ["created_at"] else [])
        ++ (if fields.any (fun f => updatedTag f.dbTag) then ["updated_at"] else []) :=
  ⟨selectFieldsList_eq fields, insertFieldsList_eq fields,
   select_filter_eligible fields, rfl⟩

/-- Claim C5 counterexample: on the scenario type the four constructed
    fragments are not the literal strings the claim expects, because the
    source joins select/insert fragments with a comma-space separator and
    puts spaces around the equals sign of SET assignments. -/
theorem descriptor_scenario_counterexample :
    (NewPostgresRepository "tbl" c5Fields).selectFields
        ≠ "\"id\",\"name\",\"created_at\",\"updated_at\"" ∧
    (NewPostgresRepository "tbl" c5Fields).insertFields
        ≠ "\"name\",\"created_at\",\"updated_at\"" ∧
    (NewPostgresRepository "tbl" c5Fields).insertParams
        ≠ ":name,:created_at,:updated_at" ∧
    (NewPostgresRepository "tbl" c5Fields).updateSetFields
        ≠ "\"updated_at\"=:updated_at,\"name\"=:name" := by
  refine ⟨by decide, by decide, by decide, by decide⟩

/-- Claim C5 (amended): the descriptor built for the scenario type
    {id (read-only), name, created_at, updated_at} carries exactly these
    fragments, with comma-space separators in selectFields, insertFields
    and insertParams, and a bare comma separator with spaced equals signs
    in updateSetFields. -/
theorem descriptor_scenario_amended :
    (NewPostgresRepository "tbl" c5Fields).selectFields
        = "\"id\", \"name\", \"created_at\", \"updated_at\"" ∧
    (NewPostgresRepository "tbl" c5Fields).insertFields
        = "\"name\", \"created_at\", \"updated_at\"" ∧
    (NewPostgresRepository "tbl" c5Fields).insertParams
        = ":name, :created_at, :updated_at" ∧
    (NewPostgresRepository "tbl" c5Fields).updateSetFields
        = "\"updated_at\" = :updated_at,\"name\" = :name" := by
  refine ⟨by decide, by decide, by decide, by decide⟩

/-- Claim C6: for every entity type, insertFields and insertParams have the
    same number of entries and correspond positionally (both are images of
    the same ordered tag list, the i-th parameter naming the i-th insert
    column), and selectFields has at least as many columns as
    insertFields. -/
theorem insert_fragments_correspond (fields : List GoField) :
    insertFieldsList fields = (insertTagsList fields).map (fun t => "\"" ++ t ++ "\"") ∧
    insertParamsList fields = (insertTagsList fields).map (fun t => ":" ++ t) ∧
    (insertFieldsList fields).length = (insertParamsList fields).length ∧
    (insertFieldsList fields).length ≤ (selectFieldsList fields).length ∧
    insertFields fields = goJoin (insertFieldsList fields) ", " ∧
    insertParams fields = goJoin (insertParamsList fields) ", " := by
  refine ⟨insertFieldsList_eq fields, insertParamsList_eq fields, ?_,
    select_len_ge_insert_len fields, rfl, rfl⟩
  rw [insertFieldsList_eq fields, insertParamsList_eq fields]
  simp

/-! ### Transaction lifecycle (claim C3) -/

/-- Claim C3: RunInTransaction rolls back and returns the unit of work's
    error, rolls back and re-propagates a panic, and propagates a Beginx
    failure; but because the error result of the Go function is unnamed,
    the deferred err = tx.Commit() assignment is lost and a commit failure
    is returned to the caller as nil: the code drops commit errors,
    contradicting the claim and the comment in the source. -/
theorem runInTransaction_commit_error_dropped :
    RunInTransaction none FResult.ok (some "commit failed")
      = (RunResult.ret none,
         { began := true, rolledBack := false, committed := true }) ∧
    RunInTransaction none (FResult.fail "unit of work failed") none
      = (RunResult.ret (some "unit of work failed"),
         { began := true, rolledBack := true, committed := false }) ∧
    RunInTransaction none (FResult.panics "boom") none
      = (RunResult.panicked "boom",
         { began := true, rolledBack := true, committed := false }) ∧
    RunInTransaction (some "begin failed") FResult.ok none
      = (RunResult.ret (some "begin failed"),
         { began := false, rolledBack := false, committed := false }) :=
  ⟨rfl, rfl, rfl, rfl⟩

/-! ### Read-operation routing (claim C8) -/

/-- Claim C8 counterexample: inside a transaction CustomQuery runs on the
    transaction handle but its generated SQL is the caller statement
    unchanged, without the FOR UPDATE suffix the claim requires. -/
theorem customQuery_never_locks :
    CustomQuery true "SELECT 1" = (Executor.tx, "SELECT 1") ∧
    "SELECT 1" ≠ "SELECT 1 FOR UPDATE" :=
  ⟨rfl, by decide⟩

/-- Claim C8 (amended): when the context carries a transaction handle,
    Single, Where, SelectAll and CustomAnyQuery execute on that handle and
    append the FOR UPDATE suffix to their generated SQL, and otherwise run
    on the pooled executor with an empty suffix; CustomQuery switches
    executor the same way but always uses an empty suffix. -/
theorem reads_follow_context (r : PostgresRepository) (w ob lim stmt : String) (b : Bool) :
    Single r b w = (if b then Executor.tx else Executor.pool,
      "SELECT " ++ r.selectFields ++ " FROM " ++ r.tableName ++ " WHERE " ++ w
        ++ " " ++ (if b then " FOR UPDATE" else "") ++ " LIMIT 1") ∧
    Where r b w = (if b then Executor.tx else Executor.pool,
      "SELECT " ++ r.selectFields ++ " FROM " ++ r.tableName ++ " WHERE " ++ w
        ++ (if b then " FOR UPDATE" else "")) ∧
    SelectAll r b ob lim = (if b then Executor.tx else Executor.pool,
      "SELECT " ++ r.selectFields ++ " FROM " ++ r.tableName ++ " ORDER BY "
        ++ (if ob == "" then "ID" else ob) ++ " LIMIT " ++ lim ++ " "
        ++ (if b then " FOR UPDATE" else "")) ∧
    CustomAnyQuery b stmt = (if b then Executor.tx else Executor.pool,
      stmt ++ (if b then " FOR UPDATE" else "")) ∧
    CustomQuery b stmt = (if b then Executor.tx else Executor.pool, stmt) := by
  cases b <;>
    refine ⟨rfl, rfl, rfl, rfl, ?_⟩ <;>
    · show (_, stmt ++ "") = (_, stmt)
      rw [sappend_empty]

/-! ### PermanentDelete guard (claim C9) -/

/-- Claim C9: with a nil predicate argument PermanentDelete returns the
    validation error with an empty statement trace (no SQL prepared or
    executed); with a non-nil argument it prepares and executes the
    DELETE FROM table WHERE predicate statement on the resolved executor. -/
theorem permanentDelete_guard (r : PostgresRepository) (w : String) (b : Bool) :
    PermanentDelete r b w true
      = (some "There Must be Where condition for Deletion Process", []) ∧
    PermanentDelete r b w false
      = (none, [DBAction.prepareNamed (if b then Executor.tx else Executor.pool)
          ("\n\t\tDELETE FROM " ++ r.tableName ++ " WHERE " ++ w),
          DBAction.exec]) := by
  cases b <;> exact ⟨rfl, rfl⟩

/-! ### Struct path binds verbatim (claim C10) -/

theorem bindStructElem_sublist (fields : List GoField) (vals : List GoValue) :
    (bindStructElem fields vals).Sublist vals := by
  induction fields generalizing vals with
  | nil => simp [bindStructElem]
  | cons f fs ih =>
    cases vals with
    | nil => simp [bindStructElem]
    | cons v vs =>
      simp only [bindStructElem, List.zip_cons_cons, List.filterMap_cons]
      split
      · exact (ih vs).cons v
      · next b heq =>
        have hb : b = v := by
          by_cases hc : (!emptyTag f.dbTag && !readOnlyTag f.dbTag) = true
          · rw [if_pos hc] at heq
            exact (Option.some.inj heq).symm
          · rw [if_neg hc] at heq
            cases heq
        subst hb
        exact (ih vs).cons₂ b

/-- Claim C10: on the struct path of InsertBulkBase every bound value is a
    field value taken verbatim, in order (the bind list is a sublist of the
    reflected field values, with no coercion applied), while the
    value-slice path coerces exactly the fields whose declared kind is
    Int64 through StringToInt, so the two shapes can bind different values
    for the same input: the string 12.5 on an Int64-typed column binds as
    the integer 12 on the rows path but as the original string on the
    struct path, and passes through unchanged when the declared kind is
    not Int64. -/
theorem struct_path_binds_verbatim :
    (∀ (fields : List GoField) (vals : List GoValue),
        (bindStructElem fields vals).Sublist vals) ∧
    bindRowsElem [⟨"amount", true⟩] [GoValue.str "12.5"] = [GoValue.int 12] ∧
    bindStructElem [⟨"amount", true⟩] [GoValue.str "12.5"] = [GoValue.str "12.5"] ∧
    bindRowsElem [⟨"amount", false⟩] [GoValue.str "12.5"] = [GoValue.str "12.5"] := by
  refine ⟨bindStructElem_sublist, by decide, by decide, by decide⟩

/-! ### StringToInt coercion (claim C7) -/

theorem parseUintLoop_cases (n : Nat) (cs : List Char) :
    ((parseUintLoop n cs).2 = some AtoiErr.invalid → (parseUintLoop n cs).1 = 0) ∧
    ((parseUintLoop n cs).2 = some AtoiErr.range → (parseUintLoop n cs).1 = MAXUINT64) := by
  induction cs generalizing n with
  | nil => simp [parseUintLoop]
  | cons c cs ih =>
    simp only [parseUintLoop]
    split
    · split
      · simp
      · exact ih _
    · simp

theorem parseUint_cases (cs : List Char) :
    ((parseUint cs).2 = some AtoiErr.invalid → (parseUint cs).1 = 0) ∧
    ((parseUint cs).2 = some AtoiErr.range → (parseUint cs).1 = MAXUINT64) := by
  cases cs with
  | nil => simp [parseUint]
  | cons c cs => exact parseUintLoop_cases 0 (c :: cs)

theorem goAtoiList_invalid (cs : List Char)
    (h : (goAtoiList cs).2 = some AtoiErr.invalid) : (goAtoiList cs).1 = 0 := by
  cases cs with
  | nil => rfl
  | cons c rest =>
    simp only [goAtoiList] at h ⊢
    by_cases e1 : (parseUint (if c = '-' ∨ c = '+' then rest else c :: rest)).2
        = some AtoiErr.invalid
    · rw [if_pos e1]
    · rw [if_neg e1] at h ⊢
      by_cases e2 : ¬(c = '-')
          ∧ 2 ^ 63 ≤ (parseUint (if c = '-' ∨ c = '+' then rest else c :: rest)).1
      · rw [if_pos e2] at h
        simp at h
      · rw [if_neg e2] at h ⊢
        by_cases e3 : (c = '-')
            ∧ 2 ^ 63 < (parseUint (if c = '-' ∨ c = '+' then rest else c :: rest)).1
        · rw [if_pos e3] at h
          simp at h
        · rw [if_neg e3] at h
          exact absurd h e1

theorem goAtoiList_range (cs : List Char)
    (h : (goAtoiList cs).2 = some AtoiErr.range) :
    (goAtoiList cs).1 = 2 ^ 63 - 1 ∨ (goAtoiList cs).1 = -(2 ^ 63) := by
  cases cs with
  | nil => simp [goAtoiList] at h
  | cons c rest =>
    simp only [goAtoiList] at h ⊢
    by_cases e1 : (parseUint (if c = '-' ∨ c = '+' then rest else c :: rest)).2
        = some AtoiErr.invalid
    · rw [if_pos e1] at h
      simp at h
    · rw [if_neg e1] at h ⊢
      by_cases e2 : ¬(c = '-')
          ∧ 2 ^ 63 ≤ (parseUint (if c = '-' ∨ c = '+' then rest else c :: rest)).1
      · rw [if_pos e2]
        exact Or.inl rfl
      · rw [if_neg e2] at h ⊢
        by_cases e3 : (c = '-')
            ∧ 2 ^ 63 < (parseUint (if c = '-' ∨ c = '+' then rest else c :: rest)).1
        · rw [if_pos e3]
          exact Or.inr rfl
        · rw [if_neg e3] at h
          exfalso
          have hmax : (parseUint (if c = '-' ∨ c = '+' then rest else c :: rest)).1
              = MAXUINT64 := (parseUint_cases _).2 h
          rw [hmax] at e2 e3
          by_cases hneg : c = '-'
          · exact e3 ⟨hneg, by decide⟩
          · exact e2 ⟨hneg, by decide⟩

/-- Claim C7 (amended): StringToInt formats the value, truncates at the
    first dot, trims whitespace and parses with strconv.Atoi, discarding
    the error; it is total, yields 0 whenever the parse fails as invalid
    syntax, and yields the clamped 64-bit boundary value (not 0) when the
    parse fails because the numeral is out of range. -/
theorem stringToInt_amended (s : String) :
    StringToInt s = (goAtoi (goTrimSpace (truncOnDot s))).1 ∧
    ((goAtoi (goTrimSpace (truncOnDot s))).2 = some AtoiErr.invalid →
      StringToInt s = 0) ∧
    ((goAtoi (goTrimSpace (truncOnDot s))).2 = some AtoiErr.range →
      StringToInt s = 2 ^ 63 - 1 ∨ StringToInt s = -(2 ^ 63)) :=
  ⟨rfl, fun h => goAtoiList_invalid _ h, fun h => goAtoiList_range _ h⟩

/-- Claim C7 witness: a syntactically malformed numeric string coerces to
    0 with no error surfaced. -/
theorem stringToInt_amended_witness :
    (goAtoi (goTrimSpace (truncOnDot " 12abc "))).2 = some AtoiErr.invalid ∧
    StringToInt " 12abc " = 0 :=
  ⟨by decide, (stringToInt_amended " 12abc ").2.1 (by decide)⟩

/-- Claim C7 counterexample: on the input 9223372036854775808.99 the parse
    fails with a range error, yet StringToInt returns the clamped value
    9223372036854775807 rather than the 0 the claim asserts for every
    failed parse. -/
theorem stringToInt_overflow_not_zero :
    (goAtoi (goTrimSpace (truncOnDot "9223372036854775808.99"))).2
        = some AtoiErr.range ∧
    StringToInt "9223372036854775808.99" = 9223372036854775807 ∧
    StringToInt "9223372036854775808.99" ≠ 0 := by
  refine ⟨by decide, by decide, by decide⟩

/-! ### Bulk-insert batching (claim C1) -/

theorem bindRowsElem_length (fields : List GoField) (rows : List GoValue)
    (h : rows.length = fields.length) :
    (bindRowsElem fields rows).length
      = fields.countP (fun f => !emptyTag f.dbTag && !readOnlyTag f.dbTag) := by
  induction fields generalizing rows with
  | nil =>
    cases rows with
    | nil => rfl
    | cons r rs => simp at h
  | cons f fs ih =>
    cases rows with
    | nil => simp at h
    | cons r rs =>
      have hr : rs.length = fs.length := by simpa using h
      have hrec := ih rs hr
      simp only [bindRowsElem] at hrec ⊢
      rw [List.zip_cons_cons, List.countP_cons]
      by_cases hp : (!emptyTag f.dbTag && !readOnlyTag f.dbTag) = true
      · rw [List.filterMap_cons_some (by rw [if_pos hp]), List.length_cons, hrec,
          if_pos hp]
      · rw [List.filterMap_cons_none (by rw [if_neg hp]), hrec, if_neg hp]
        omega

theorem bindStructElem_length (fields : List GoField) (vals : List GoValue)
    (h : vals.length = fields.length) :
    (bindStructElem fields vals).length
      = fields.countP (fun f => !emptyTag f.dbTag && !readOnlyTag f.dbTag) := by
  induction fields generalizing vals with
  | nil =>
    cases vals with
    | nil => rfl
    | cons v vs => simp at h
  | cons f fs ih =>
    cases vals with
    | nil => simp at h
    | cons v vs =>
      have hv : vs.length = fs.length := by simpa using h
      have hrec := ih vs hv
      simp only [bindStructElem] at hrec ⊢
      rw [List.zip_cons_cons, List.countP_cons]
      by_cases hp : (!emptyTag f.dbTag && !readOnlyTag f.dbTag) = true
      · rw [List.filterMap_cons_some (by rw [if_pos hp]), List.length_cons, hrec,
          if_pos hp]
      · rw [List.filterMap_cons_none (by rw [if_neg hp]), hrec, if_neg hp]
        omega

theorem zip_any_right (rows : List GoValue) (fields : List GoField)
    (p : GoField → Bool) (h : rows.length = fields.length) :
    ((rows.zip fields).any fun q => p q.2) = fields.any p := by
  induction fields generalizing rows with
  | nil =>
    cases rows with
    | nil => rfl
    | cons r rs => simp at h
  | cons f fs ih =>
    cases rows with
    | nil => simp at h
    | cons r rs =>
      have hr : rs.length = fs.length := by simpa using h
      simp only [List.zip_cons_cons, List.any_cons, ih rs hr]

theorem countP_eq_one_of_any (fields : List GoField) (p : GoField → Bool)
    (h1 : fields.countP p ≤ 1) (h : fields.any p = true) : fields.countP p = 1 := by
  obtain ⟨x, hx, hpx⟩ := List.any_eq_true.mp h
  have := List.countP_pos_iff.mpr ⟨x, hx, hpx⟩
  omega

theorem countP_eq_zero_of_not_any (fields : List GoField) (p : GoField → Bool)
    (h : fields.any p = false) : fields.countP p = 0 := by
  rw [List.countP_eq_zero]
  intro a ha hpa
  have : fields.any p = true := List.any_eq_true.mpr ⟨a, ha, hpa⟩
  rw [h] at this
  cases this

theorem bulkElemStep_inv (fields : List GoField) (e : GoElem) (i : Nat) (st : BulkState)
    (hOK : elemOK fields e = true)
    (h1 : fields.countP (fun f => createdTag f.dbTag) ≤ 1)
    (h2 : fields.countP (fun f => updatedTag f.dbTag) ≤ 1)
    (hbv : st.bindValues.length = (i % 100) * colLen fields)
    (hst : st.stmts = List.replicate (i / 100) 100)
    (hcount : st.count = (i / 100) * 100)
    (hcT : st.createTag = true → fields.any (fun f => createdTag f.dbTag) = true)
    (huT : st.updateTag = true → fields.any (fun f => updatedTag f.dbTag) = true) :
    (bulkElemStep fields st (i, e)).bindValues.length
        = ((i + 1) % 100) * colLen fields ∧
    (bulkElemStep fields st (i, e)).stmts = List.replicate ((i + 1) / 100) 100 ∧
    (bulkElemStep fields st (i, e)).count = ((i + 1) / 100) * 100 ∧
    ((bulkElemStep fields st (i, e)).createTag = true →
        fields.any (fun f => createdTag f.dbTag) = true) ∧
    ((bulkElemStep fields st (i, e)).updateTag = true →
        fields.any (fun f => updatedTag f.dbTag) = true) := by
  have hcT' : (st.createTag || fields.any (fun f => createdTag f.dbTag))
      = fields.any (fun f => createdTag f.dbTag) := by
    cases hA : fields.any (fun f => createdTag f.dbTag) with
    | true => simp
    | false =>
      cases hS : st.createTag with
      | false => simp
      | true =>
        rw [hcT hS] at hA
        cases hA
  have huT' : (st.updateTag || fields.any (fun f => updatedTag f.dbTag))
      = fields.any (fun f => updatedTag f.dbTag) := by
    cases hA : fields.any (fun f => updatedTag f.dbTag) with
    | true => simp
    | false =>
      cases hS : st.updateTag with
      | false => simp
      | true =>
        rw [huT hS] at hA
        cases hA
  have hcnt : (if fields.any (fun f => createdTag f.dbTag) then ([GoValue.time] : List GoValue)
      else []).length = fields.countP (fun f => createdTag f.dbTag) := by
    cases hA : fields.any (fun f => createdTag f.dbTag) with
    | true => simp [countP_eq_one_of_any fields _ h1 hA]
    | false => simp [countP_eq_zero_of_not_any fields _ hA]
  have hcnt_u : (if fields.any (fun f => updatedTag f.dbTag) then ([GoValue.time] : List GoValue)
      else []).length = fields.countP (fun f => updatedTag f.dbTag) := by
    cases hA : fields.any (fun f => updatedTag f.dbTag) with
    | true => simp [countP_eq_one_of_any fields _ h2 hA]
    | false => simp [countP_eq_zero_of_not_any fields _ hA]
  have hdef : colLen fields = fields.countP (fun f => createdTag f.dbTag)
      + fields.countP (fun f => updatedTag f.dbTag)
      + fields.countP (fun f => !emptyTag f.dbTag && !readOnlyTag f.dbTag) := rfl
  cases e with
  | rows r =>
    have hlen : r.length = fields.length := by simpa [elemOK] using hOK
    have hbinds := bindRowsElem_length fields r hlen
    have hAC := zip_any_right r fields (fun f => createdTag f.dbTag) hlen
    have hAU := zip_any_right r fields (fun f => updatedTag f.dbTag) hlen
    simp only [bulkElemStep, hAC, hAU, hcT', huT', rowPerInsert]
    by_cases hmod : (i + 1) % 100 = 0
    · rw [if_pos hmod]
      refine ⟨?_, ?_, ?_, fun h => h, fun h => h⟩
      · show (List.length ([] : List GoValue)) = ((i + 1) % 100) * colLen fields
        rw [hmod]
        simp
      · show st.stmts ++ [100] = List.replicate ((i + 1) / 100) 100
        rw [hst]
        have hq : (i + 1) / 100 = i / 100 + 1 := by omega
        rw [hq, List.replicate_succ']
      · show st.count + 100 = ((i + 1) / 100) * 100
        rw [hcount]
        have hq : (i + 1) / 100 = i / 100 + 1 := by omega
        rw [hq]
        ring
    · rw [if_neg hmod]
      refine ⟨?_, ?_, ?_, fun h => h, fun h => h⟩
      · show (st.bindValues ++ bindRowsElem fields r
            ++ (if fields.any (fun f => createdTag f.dbTag) then [GoValue.time] else [])
            ++ (if fields.any (fun f => updatedTag f.dbTag) then [GoValue.time] else [])).length
          = ((i + 1) % 100) * colLen fields
        rw [List.length_append, List.length_append, List.length_append,
          hbv, hbinds, hcnt, hcnt_u]
        have hmod2 : (i + 1) % 100 = i % 100 + 1 := by omega
        rw [hmod2, Nat.succ_mul]
        omega
      · show st.stmts = List.replicate ((i + 1) / 100) 100
        have hq : (i + 1) / 100 = i / 100 := by omega
        rw [hq]
        exact hst
      · show st.count = ((i + 1) / 100) * 100
        have hq : (i + 1) / 100 = i / 100 := by omega
        rw [hq]
        exact hcount
  | strukt v =>
    have hlen : v.length = fields.length := by simpa [elemOK] using hOK
    have hbinds := bindStructElem_length fields v hlen
    simp only [bulkElemStep, hcT', huT', rowPerInsert]
    by_cases hmod : (i + 1) % 100 = 0
    · rw [if_pos hmod]
      refine ⟨?_, ?_, ?_, fun h => h, fun h => h⟩
      · show (List.length ([] : List GoValue)) = ((i + 1) % 100) * colLen fields
        rw [hmod]
        simp
      · show st.stmts ++ [100] = List.replicate ((i + 1) / 100) 100
        rw [hst]
        have hq : (i + 1) / 100 = i / 100 + 1 := by omega
        rw [hq, List.replicate_succ']
      · show st.count + 100 = ((i + 1) / 100) * 100
        rw [hcount]
        have hq : (i + 1) / 100 = i / 100 + 1 := by omega
        rw [hq]
        ring
    · rw [if_neg hmod]
      refine ⟨?_, ?_, ?_, fun h => h, fun h => h⟩
      · show (st.bindValues ++ bindStructElem fields v
            ++ (if fields.any (fun f => createdTag f.dbTag) then [GoValue.time] else [])
            ++ (if fields.any (fun f => updatedTag f.dbTag) then [GoValue.time] else [])).length
          = ((i + 1) % 100) * colLen fields
        rw [List.length_append, List.length_append, List.length_append,
          hbv, hbinds, hcnt, hcnt_u]
        have hmod2 : (i + 1) % 100 = i % 100 + 1 := by omega
        rw [hmod2, Nat.succ_mul]
        omega
      · show st.stmts = List.replicate ((i + 1) / 100) 100
        have hq : (i + 1) / 100 = i / 100 := by omega
        rw [hq]
        exact hst
      · show st.count = ((i + 1) / 100) * 100
        have hq : (i + 1) / 100 = i / 100 := by omega
        rw [hq]
        exact hcount

theorem bulk_fold_inv (fields : List GoField)
    (h1 : fields.countP (fun f => createdTag f.dbTag) ≤ 1)
    (h2 : fields.countP (fun f => updatedTag f.dbTag) ≤ 1)
    (elems : List GoElem) (i : Nat) (st : BulkState)
    (hOK : ∀ e ∈ elems, elemOK fields e = true)
    (hbv : st.bindValues.length = (i % 100) * colLen fields)
    (hst : st.stmts = List.replicate (i / 100) 100)
    (hcount : st.count = (i / 100) * 100)
    (hcT : st.createTag = true → fields.any (fun f => createdTag f.dbTag) = true)
    (huT : st.updateTag = true → fields.any (fun f => updatedTag f.dbTag) = true) :
    ((elems.enumFrom i).foldl (bulkElemStep fields) st).bindValues.length
        = ((i + elems.length) % 100) * colLen fields ∧
    ((elems.enumFrom i).foldl (bulkElemStep fields) st).stmts
        = List.replicate ((i + elems.length) / 100) 100 ∧
    ((elems.enumFrom i).foldl (bulkElemStep fields) st).count
        = ((i + elems.length) / 100) * 100 := by
  induction elems generalizing i st with
  | nil => simpa using ⟨hbv, hst, hcount⟩
  | cons e es ih =>
    obtain ⟨b1, b2, b3, b4, b5⟩ := bulkElemStep_inv fields e i st (hOK e (by simp)) h1 h2
      hbv hst hcount hcT huT
    have hres := ih (i + 1) (bulkElemStep fields st (i, e))
      (fun x hx => hOK x (by simp [hx])) b1 b2 b3 b4 b5
    rw [List.enumFrom_cons, List.foldl_cons, List.length_cons]
    have harith : i + (es.length + 1) = (i + 1) + es.length := by omega
    rw [harith]
    exact hres

theorem sum_replicate_nat (k x : Nat) : (List.replicate k x).sum = k * x := by
  induction k with
  | zero => simp
  | succ k ih =>
    rw [List.replicate_succ, List.sum_cons, ih, Nat.succ_mul]
    omega

/-- Claim C1: for a non-empty input of N well-formed elements (each
    supplying one value per declared field, with at most one created_at and
    one updated_at field and at least one bound column), when every
    statement execution succeeds InsertBulkBase executes exactly
    ceil(N/100) INSERT statements - floor(N/100) full batches of width 100
    plus one remainder statement of N mod 100 rows when N mod 100 is not
    zero - and returns the sum of the per-statement affected-row counts,
    which equals N; InsertBulkWithCount forwards this result, and 250
    elements produce exactly the widths 100, 100, 50. -/
theorem insertBulkBase_batches (fields : List GoField) (elems : List GoElem)
    (h1 : fields.countP (fun f => createdTag f.dbTag) ≤ 1)
    (h2 : fields.countP (fun f => updatedTag f.dbTag) ≤ 1)
    (hcol : 1 ≤ colLen fields)
    (hOK : ∀ e ∈ elems, elemOK fields e = true)
    (hne : elems ≠ []) :
    InsertBulkBase fields elems = Except.ok (elems.length,
      List.replicate (elems.length / 100) 100
        ++ (if elems.length % 100 = 0 then [] else [elems.length % 100])) ∧
    (List.replicate (elems.length / 100) 100
        ++ (if elems.length % 100 = 0 then [] else [elems.length % 100])).length
      = (elems.length + 99) / 100 ∧
    (List.replicate (elems.length / 100) 100
        ++ (if elems.length % 100 = 0 then [] else [elems.length % 100])).sum
      = elems.length ∧
    InsertBulkWithCount fields elems = InsertBulkBase fields elems ∧
    (elems.length = 250 →
      InsertBulkBase fields elems = Except.ok (250, [100, 100, 50])) := by
  have hlen0 : ¬ elems.length = 0 := by simpa [List.length_eq_zero] using hne
  obtain ⟨f1, f2, f3⟩ := bulk_fold_inv fields h1 h2 elems 0
    { bindValues := [], stmts := [], count := 0, createTag := false, updateTag := false }
    hOK (by simp) (by simp) (by simp) (by simp) (by simp)
  rw [Nat.zero_add] at f1 f2 f3
  have henum : elems.enumFrom 0 = elems.enum := rfl
  rw [henum] at f1 f2 f3
  have hmain : InsertBulkBase fields elems = Except.ok (elems.length,
      List.replicate (elems.length / 100) 100
        ++ (if elems.length % 100 = 0 then [] else [elems.length % 100])) := by
    unfold InsertBulkBase
    rw [if_neg hlen0]
    unfold bulkFinish
    by_cases hm : elems.length % 100 = 0
    · rw [if_neg (by rw [f1, hm]; simp)]
      rw [f2, f3, if_pos hm, List.append_nil]
      have : elems.length / 100 * 100 = elems.length := by omega
      rw [this]
    · have hpos : 0 < (elems.enum.foldl (bulkElemStep fields)
          { bindValues := [], stmts := [], count := 0,
            createTag := false, updateTag := false }).bindValues.length := by
        rw [f1]
        exact Nat.mul_pos (by omega) (by omega)
      rw [if_pos hpos, f1, f2, f3]
      have hdiv : elems.length % 100 * colLen fields / colLen fields % rowPerInsert
          = elems.length % 100 := by
        rw [Nat.mul_div_cancel _ (by omega : 0 < colLen fields)]
        show elems.length % 100 % 100 = elems.length % 100
        omega
      rw [hdiv, if_neg hm]
      have : elems.length / 100 * 100 + elems.length % 100 = elems.length := by omega
      rw [this]
  refine ⟨hmain, ?_, ?_, rfl, ?_⟩
  · simp only [List.length_append, List.length_replicate, apply_ite List.length,
      List.length_cons, List.length_nil]
    by_cases hm : elems.length % 100 = 0
    · rw [if_pos hm]
      omega
    · rw [if_neg hm]
      omega
  · rw [List.sum_append, sum_replicate_nat]
    by_cases hm : elems.length % 100 = 0
    · rw [if_pos hm]
      simp
      omega
    · rw [if_neg hm]
      simp
      omega
  · intro h250
    rw [hmain, h250]
    have hlist : List.replicate ((250 : Nat) / 100) 100
        ++ (if (250 : Nat) % 100 = 0 then ([] : List Nat) else [(250 : Nat) % 100])
        = [100, 100, 50] := by decide
    rw [hlist]

/-- Claim C1 witness: 250 one-column value-slice elements yield count 250
    via exactly three statements of 100, 100 and 50 rows. -/
theorem insertBulkBase_batches_witness :
    InsertBulkBase c1Fields c1Elems = Except.ok (c1Elems.length,
      List.replicate (c1Elems.length / 100) 100
        ++ (if c1Elems.length % 100 = 0 then [] else [c1Elems.length % 100])) ∧
    InsertBulkBase c1Fields c1Elems = Except.ok (250, [100, 100, 50]) :=
  ⟨(insertBulkBase_batches c1Fields c1Elems (by decide) (by decide) (by decide)
      (by decide) (by decide)).1,
   (insertBulkBase_batches c1Fields c1Elems (by decide) (by decide) (by decide)
      (by decide) (by decide)).2.2.2.2 (by decide)⟩

end DataRepo
